import Mathlib

/-!
Verification development for the CFSReader waveform engine and serial
controller (`src/heatmap.py` and `src/serial_controller.py`).

Numbers are modelled as exact rationals (`ℚ`).  Python built-ins used by the
code are modelled explicitly:

* `pyround` models Python's `round(x)` (round half to even, banker's rounding);
* `pyround2` models `round(x, 2)`;
* `pytrunc` models `int(x)` (truncation toward zero);
* `fmod` models the float `%` operator (`a - b * floor (a / b)`, the result
  has the sign of the divisor, here always used with a positive divisor);
* `div?` models `/` where a zero divisor raises `ZeroDivisionError`
  (modelled as `none`).

Python's `list.sort(key=...)` is a stable sort with respect to a total
preorder on keys; with a total, transitive relation a stable sort's output
is unique, so it is modelled by `List.insertionSort` (which is stable).
-/

attribute [local semireducible] Rat.mul Rat.inv Rat.add Rat.sub Rat.ofScientific

/-! ## Definitions -/

/-- Python `round(q)`: round half to even, returning an integer. -/
def pyround (q : ℚ) : ℤ :=
  if q - ⌊q⌋ < 1/2 then ⌊q⌋
  else if 1/2 < q - ⌊q⌋ then ⌊q⌋ + 1
  else if ⌊q⌋ % 2 = 0 then ⌊q⌋ else ⌊q⌋ + 1

/-- Python `round(q, 2)`: round to two decimal places (ties to even). -/
def pyround2 (q : ℚ) : ℚ := (pyround (q * 100) : ℚ) / 100

/-- Python `int(q)`: truncation toward zero. -/
def pytrunc (q : ℚ) : ℤ := if q < 0 then ⌈q⌉ else ⌊q⌋

/-- Python float `%`: `a - b * ⌊a / b⌋`. -/
def fmod (a b : ℚ) : ℚ := a - b * ⌊a / b⌋

/-- Checked division: Python `/` raises `ZeroDivisionError` on a zero divisor. -/
def div? (a b : ℚ) : Option ℚ := if b = 0 then none else some (a / b)

/-- Checked float `%`. -/
def fmod? (a b : ℚ) : Option ℚ := (div? a b).map fun q => a - b * ⌊q⌋

/-! ## Serial controller (`src/serial_controller.py`)

`SerialController.linear_map` (lines 175-180), the loop-send worker
(lines 153-173), `start_loop_send` / `stop_loop_send` (lines 134-151) and
`new_page` (lines 182-191). -/

/-- Model of `SerialController.linear_map(value, in_min=0, in_max=100, out_min=0, out_max=9999)`:
returns `value` unchanged if `in_min == in_max`, otherwise clamps `value` to
`[in_min, in_max]`, scales it into `[out_min, out_max]`, rounds, and clamps
the rounded result to `[out_min, out_max]`. -/
def linear_map (value in_min in_max out_min out_max : ℚ) : ℚ :=
  if in_min = in_max then value
  else
    let v := max in_min (min value in_max)
    max out_min (min out_max
      ((pyround ((v - in_min) / (in_max - in_min) * (out_max - out_min) + out_min) : ℤ) : ℚ))

/-- One iteration of `SerialController._loop_send_worker` (lines 158-166):
the message `f"L0{self.linear_map(msg_type)}I{int(duration * 1000 / self.freq)}\n"`
sent at 1-based iteration `index`.  On even `index` the payload is the mapped
`self.max` with duration `1 - decline_ratio`, on odd `index` the mapped
`self.min` with duration `decline_ratio`.  `linear_map` with the default
bounds always yields an integer-valued rational, rendered via `.num`
(Python renders the `int` that `linear_map` returns). -/
def loopBodyMessage (maxv minv freq dr : ℚ) (index : ℕ) : String :=
  let msg_type := if index % 2 = 0 then maxv else minv
  let duration := if index % 2 = 0 then 1 - dr else dr
  "L0" ++ toString (linear_map msg_type 0 100 0 9999).num
    ++ "I" ++ toString (pytrunc (duration * 1000 / freq)) ++ "\n"

/-- The sequence of messages sent by `_loop_send_worker` over `n` uninterrupted
iterations (stop event never set, connection up, every send succeeding):
the worker returns immediately when `self.freq == 0` (line 155), otherwise
`index` starts at 1 and increments by 1 per iteration (lines 157, 166). -/
def loopTrace (maxv minv freq dr : ℚ) (n : ℕ) : List String :=
  if freq = 0 then []
  else (List.range n).map fun i => loopBodyMessage maxv minv freq dr (i + 1)

/-- One ParameterSet entry of a CFS document (`max`, `min`, `freq`,
`decline_ratio` fields read by `new_page`, lines 187-190). -/
structure PageParams where
  pmax : ℚ
  pmin : ℚ
  pfreq : ℚ
  pdecline : ℚ
deriving DecidableEq, Repr

/-- Observable state of a `SerialController`: the oscillation attributes
(`self.max`, `self.min`, `self.freq`, `self.decline_ratio`), the loaded CFS
document (`self.current_cfs`, as an association list), connection status,
whether `_loop_stop_event` exists and is set, whether `_loop_thread` is
alive, a spawn-generation counter (`loopGen` increments exactly when
`threading.Thread(...).start()` runs, so it counts worker spawns), and the
log of payloads passed to `send_data`. -/
structure SC where
  maxv : ℚ
  minv : ℚ
  freq : ℚ
  dr : ℚ
  cfs : List (String × PageParams)
  connected : Bool
  hasLoopEvent : Bool
  stopSet : Bool
  loopAlive : Bool
  loopGen : ℕ
  sent : List String
deriving DecidableEq, Repr

/-- Model of `SerialController.send_data` (lines 59-69): fails (returns `False`)
when not connected, otherwise writes the payload. -/
def send_data (s : SC) (d : String) : Bool × SC :=
  if s.connected then (true, { s with sent := s.sent ++ [d] }) else (false, s)

/-- Model of `SerialController.start_loop_send` (lines 134-143): refuses when not
connected, refuses when a loop thread is already alive; otherwise creates a
fresh (unset) stop event and spawns a new worker thread. -/
def start_loop_send (s : SC) : Bool × SC :=
  if ¬ s.connected then (false, s)
  else if s.loopAlive then (false, s)
  else (true, { s with hasLoopEvent := true, stopSet := false,
                       loopAlive := true, loopGen := s.loopGen + 1 })

/-- Model of `SerialController.stop_loop_send` (lines 145-151): returns `False` when
`_loop_stop_event` was never created; otherwise sets the event and sends
`DSTOP\n` (the send result is discarded). -/
def stop_loop_send (s : SC) : Bool × SC :=
  if ¬ s.hasLoopEvent then (false, s)
  else
    let s1 := { s with stopSet := true }
    (true, (send_data s1 "DSTOP\n").2)

/-- Model of `SerialController.new_page` (lines 182-191): an empty page id, an empty
document, or an unresolvable id stops the loop; otherwise the four
oscillation attributes are overwritten from the document entry and
`start_loop_send` is called (its boolean result is discarded). -/
def new_page (s : SC) (page : String) : SC :=
  if page = "" ∨ s.cfs = [] ∨ (s.cfs.lookup page).isNone then (stop_loop_send s).2
  else
    match s.cfs.lookup page with
    | none => (stop_loop_send s).2
    | some ps =>
      let s1 := { s with maxv := ps.pmax, minv := ps.pmin,
                         freq := ps.pfreq, dr := ps.pdecline }
      (start_loop_send s1).2

/-! ## Waveform keypoint generator (`src/heatmap.py`)

`generate_sawtooth_points` (lines 21-136) with its inner helpers
`value_at_phase` (lines 37-57) and `find_initial_phase` (lines 59-90), and
`merge_curve_points` (lines 138-157).  The Python inner functions close over
`max_val`, `min_val`, `T`, `decline_time`, `rise_time`; here they take those
captured values as explicit parameters. -/

/-- The `{"x": [...], "y": [...]}` dictionary returned by the generator:
integer millisecond times and two-decimal values. -/
structure Curve where
  x : List ℤ
  y : List ℚ
deriving DecidableEq, Repr

/-- The branch structure of `value_at_phase` (heatmap.py lines 41-57) on the
already-normalized phase. -/
def value_at_phase_core (max_val min_val decline_time rise_time phase : ℚ) : ℚ :=
  if decline_time = 0 then
    if phase = 0 then max_val
    else min_val + (max_val - min_val) * (phase / rise_time)
  else if rise_time = 0 then
    if phase < decline_time then max_val - (max_val - min_val) * (phase / decline_time)
    else if phase = decline_time then min_val
    else max_val
  else
    if phase < decline_time then max_val - (max_val - min_val) * (phase / decline_time)
    else min_val + (max_val - min_val) * ((phase - decline_time) / rise_time)

/-- Model of `value_at_phase(phase)` (heatmap.py lines 37-57): the phase is first
normalized into `[0, T)` by `%` when outside (lines 39-40), then the branch
logic applies. -/
def value_at_phase (max_val min_val T decline_time rise_time phase0 : ℚ) : ℚ :=
  value_at_phase_core max_val min_val decline_time rise_time
    (if phase0 < 0 ∨ phase0 ≥ T then fmod phase0 T else phase0)

/-- Model of `find_initial_phase()` (heatmap.py lines 59-90): the phase offset
`t_mod0` with `value_at_phase(t_mod0) == start_pos`, disambiguated by
`start_trend`.  The Python `t_d if t_d is not None else 0.0` fallbacks are
always `t_d` (resp. `t_r`), which is how they are written here. -/
def find_initial_phase (start_pos : ℚ) (start_trend : ℤ)
    (max_val min_val T decline_time rise_time : ℚ) : ℚ :=
  if max_val = min_val then 0
  else if decline_time = 0 then
    if start_pos = max_val then 0
    else (start_pos - min_val) / (max_val - min_val) * rise_time
  else if rise_time = 0 then
    if start_pos = min_val then decline_time
    else (max_val - start_pos) / (max_val - min_val) * decline_time
  else
    let t_d := (max_val - start_pos) / (max_val - min_val) * decline_time
    let t_r := decline_time + (start_pos - min_val) / (max_val - min_val) * rise_time
    if start_trend = -1 then
      if 0 ≤ t_d ∧ t_d ≤ decline_time then t_d
      else if start_pos = max_val then 0
      else if start_pos = min_val then decline_time
      else t_d
    else
      if decline_time ≤ t_r ∧ t_r ≤ T then t_r
      else if start_pos = min_val then decline_time
      else if start_pos = max_val then 0
      else t_r

/-- Python `range(a, b + 1)` as a list of integers. -/
def intRange (a b : ℤ) : List ℤ :=
  (List.range (b - a + 1).toNat).map fun i : ℕ => a + i

/-- One boundary-event enumeration loop of `generate_sawtooth_points`
(heatmap.py lines 96-110): the events `(k*T + shift - t0, y)` for
`k ∈ range(ceil((t0-shift)/T), floor((total+t0-shift)/T) + 1)` kept when
`0 < t ≤ total`.  The max loop uses `shift = 0`, the min loop
`shift = decline_time`. -/
def boundaryEvents (y T t0 shift total : ℚ) : List (ℚ × ℚ) :=
  (intRange ⌈(t0 - shift) / T⌉ ⌊(total + t0 - shift) / T⌋).filterMap fun k : ℤ =>
    if 0 < (k : ℚ) * T + shift - t0 ∧ (k : ℚ) * T + shift - t0 ≤ total
    then some ((k : ℚ) * T + shift - t0, y) else none

/-- The initial phase offset `t_mod0` as computed at heatmap.py line 92,
with the closure captures `T = 1000/freq`, `decline_time = T*decline_ratio`,
`rise_time = T - decline_time` of lines 33-35 spelled out. -/
def sawT0 (start_pos : ℚ) (start_trend : ℤ) (max_val min_val freq decline_ratio : ℚ) : ℚ :=
  find_initial_phase start_pos start_trend max_val min_val (1000 / freq)
    (1000 / freq * decline_ratio) (1000 / freq - 1000 / freq * decline_ratio)

/-- The end value `value_at_phase((t_mod0 + total_time) % T)` of heatmap.py
lines 113-114. -/
def sawEndValue (start_pos : ℚ) (start_trend : ℤ)
    (max_val min_val freq decline_ratio total_time : ℚ) : ℚ :=
  value_at_phase max_val min_val (1000 / freq) (1000 / freq * decline_ratio)
    (1000 / freq - 1000 / freq * decline_ratio)
    (fmod (sawT0 start_pos start_trend max_val min_val freq decline_ratio + total_time)
      (1000 / freq))

/-- The full event list of `generate_sawtooth_points` (heatmap.py lines
94-115), in the order Python builds it: max events, min events, the start
point `(0, start_pos)`, and the end point at `total_time`. -/
def sawEvents (start_pos : ℚ) (start_trend : ℤ)
    (max_val min_val freq decline_ratio total_time : ℚ) : List (ℚ × ℚ) :=
  boundaryEvents max_val (1000 / freq)
      (sawT0 start_pos start_trend max_val min_val freq decline_ratio) 0 total_time
    ++ boundaryEvents min_val (1000 / freq)
      (sawT0 start_pos start_trend max_val min_val freq decline_ratio)
      (1000 / freq * decline_ratio) total_time
    ++ [(0, start_pos),
        (total_time, sawEndValue start_pos start_trend max_val min_val freq decline_ratio
          total_time)]

/-- The sort order of heatmap.py lines 118-123: Python's stable sort with
key `(t, -y)` when `decline_ratio == 0`, key `(t, y)` when
`decline_ratio == 1`, and key `t` otherwise. -/
def eventLE (decline_ratio : ℚ) (p q : ℚ × ℚ) : Prop :=
  if decline_ratio = 0 then p.1 < q.1 ∨ (p.1 = q.1 ∧ q.2 ≤ p.2)
  else if decline_ratio = 1 then p.1 < q.1 ∨ (p.1 = q.1 ∧ p.2 ≤ q.2)
  else p.1 ≤ q.1

instance (dr : ℚ) : DecidableRel (eventLE dr) := fun p q => by
  unfold eventLE; infer_instance

instance (dr : ℚ) : IsTotal (ℚ × ℚ) (eventLE dr) := by
  constructor
  intro p q
  unfold eventLE
  split_ifs
  · rcases lt_trichotomy p.1 q.1 with h | h | h
    · exact Or.inl (Or.inl h)
    · rcases le_total p.2 q.2 with h2 | h2
      · exact Or.inr (Or.inr ⟨h.symm, h2⟩)
      · exact Or.inl (Or.inr ⟨h, h2⟩)
    · exact Or.inr (Or.inl h)
  · rcases lt_trichotomy p.1 q.1 with h | h | h
    · exact Or.inl (Or.inl h)
    · rcases le_total p.2 q.2 with h2 | h2
      · exact Or.inl (Or.inr ⟨h, h2⟩)
      · exact Or.inr (Or.inr ⟨h.symm, h2⟩)
    · exact Or.inr (Or.inl h)
  · exact le_total p.1 q.1

instance (dr : ℚ) : IsTrans (ℚ × ℚ) (eventLE dr) := by
  constructor
  intro p q u
  unfold eventLE
  split_ifs
  · rintro (h1 | ⟨h1, h1'⟩) (h2 | ⟨h2, h2'⟩)
    · exact Or.inl (lt_trans h1 h2)
    · exact Or.inl (h2 ▸ h1)
    · exact Or.inl (h1 ▸ h2)
    · exact Or.inr ⟨h1.trans h2, le_trans h2' h1'⟩
  · rintro (h1 | ⟨h1, h1'⟩) (h2 | ⟨h2, h2'⟩)
    · exact Or.inl (lt_trans h1 h2)
    · exact Or.inl (h2 ▸ h1)
    · exact Or.inl (h1 ▸ h2)
    · exact Or.inr ⟨h1.trans h2, le_trans h1' h2'⟩
  · exact le_trans

/-- The duplicate-collapsing pass of heatmap.py lines 125-130: drop an event
equal to its (kept) predecessor.  Collapsing each run of equal consecutive
pairs to a single one is what the Python loop computes. -/
def dedupConsec : List (ℚ × ℚ) → List (ℚ × ℚ)
  | [] => []
  | [a] => [a]
  | a :: b :: rest =>
    if a = b then dedupConsec (b :: rest) else a :: dedupConsec (b :: rest)

/-- The lower bound after the swap of heatmap.py lines 25-26. -/
def normMin (max_val0 min_val0 : ℚ) : ℚ := if min_val0 > max_val0 then max_val0 else min_val0

/-- The upper bound after the swap of heatmap.py lines 25-26. -/
def normMax (max_val0 min_val0 : ℚ) : ℚ := if min_val0 > max_val0 then min_val0 else max_val0

/-- Model of `generate_sawtooth_points(start_pos=None, start_trend=-1, max_val=50,
min_val=50, freq=1.0, decline_ratio=0.5, total_time=5000)` (heatmap.py
lines 21-136).  A `none` start position defaults to the (pre-swap) maximum;
`min_val`/`max_val` are swapped when `min_val > max_val`; equal bounds yield
the flat two-point curve of lines 27-31; otherwise the events are built,
sorted, collapsed, and rounded (times to integers, values to 2 decimals). -/
def generate_sawtooth_points (start_pos? : Option ℚ) (start_trend : ℤ)
    (max_val0 min_val0 freq decline_ratio total_time : ℚ) : Curve :=
  let start_pos := start_pos?.getD max_val0
  let min_val := normMin max_val0 min_val0
  let max_val := normMax max_val0 min_val0
  if max_val = min_val then
    ⟨[0, pyround total_time], [start_pos, start_pos]⟩
  else
    let U := dedupConsec (List.insertionSort (eventLE decline_ratio)
      (sawEvents start_pos start_trend max_val min_val freq decline_ratio total_time))
    ⟨U.map fun p => pyround p.1, U.map fun p => pyround2 p.2⟩

/-- One step of the `merge_curve_points` loop (heatmap.py lines 144-156) for
a non-first segment: segments with at most one x point are skipped; otherwise
the accumulated offset is the last merged x value (`merged_x[-1]`, an
`IndexError` — modelled as `none` — when the merged x list is empty), and the
zipped tails of the segment are appended with shifted times. -/
def mergeInto (acc seg : Curve) : Option Curve :=
  if seg.x.length ≤ 1 then some acc
  else
    match acc.x.getLast? with
    | none => none
    | some off =>
      some ⟨acc.x ++ (seg.x.tail.zip seg.y.tail).map fun p => p.1 + off,
            acc.y ++ ((seg.x.tail.zip seg.y.tail).map fun p => p.2)⟩

/-- Model of `merge_curve_points(segments)` (heatmap.py lines 138-157): the empty
input yields the empty curve; otherwise the first segment is copied verbatim
and the remaining segments are folded in with `mergeInto`. -/
def merge_curve_points : List Curve → Option Curve
  | [] => some ⟨[], []⟩
  | s :: rest => rest.foldlM mergeInto s

/-! ## Checked-division variant of the generator

The same translation of heatmap.py lines 21-136, but with every Python `/`
and `%` modelled by `div?` / `fmod?`, so a `ZeroDivisionError` surfaces as
`none`.  `generate_sawtooth_points?_eq` below shows the total-division
embedding agrees with it whenever `freq ≠ 0`, i.e. the plain embedding is
faithful there. -/

/-- Checked `value_at_phase` (heatmap.py lines 37-57). -/
def value_at_phase? (max_val min_val T decline_time rise_time phase0 : ℚ) : Option ℚ :=
  (if phase0 < 0 ∨ phase0 ≥ T then fmod? phase0 T else some phase0).bind fun phase =>
  if decline_time = 0 then
    if phase = 0 then some max_val
    else do
      let r ← div? phase rise_time
      some (min_val + (max_val - min_val) * r)
  else if rise_time = 0 then
    if phase < decline_time then do
      let r ← div? phase decline_time
      some (max_val - (max_val - min_val) * r)
    else if phase = decline_time then some min_val
    else some max_val
  else
    if phase < decline_time then do
      let r ← div? phase decline_time
      some (max_val - (max_val - min_val) * r)
    else do
      let r ← div? (phase - decline_time) rise_time
      some (min_val + (max_val - min_val) * r)

/-- Checked `find_initial_phase` (heatmap.py lines 59-90). -/
def find_initial_phase? (start_pos : ℚ) (start_trend : ℤ)
    (max_val min_val T decline_time rise_time : ℚ) : Option ℚ := do
  if max_val = min_val then some 0
  else if decline_time = 0 then
    if start_pos = max_val then some 0
    else do
      let r ← div? (start_pos - min_val) (max_val - min_val)
      some (r * rise_time)
  else if rise_time = 0 then
    if start_pos = min_val then some decline_time
    else do
      let r ← div? (max_val - start_pos) (max_val - min_val)
      some (r * decline_time)
  else do
    let rd ← div? (max_val - start_pos) (max_val - min_val)
    let rr ← div? (start_pos - min_val) (max_val - min_val)
    let t_d := rd * decline_time
    let t_r := decline_time + rr * rise_time
    if start_trend = -1 then
      if 0 ≤ t_d ∧ t_d ≤ decline_time then some t_d
      else if start_pos = max_val then some 0
      else if start_pos = min_val then some decline_time
      else some t_d
    else
      if decline_time ≤ t_r ∧ t_r ≤ T then some t_r
      else if start_pos = min_val then some decline_time
      else if start_pos = max_val then some 0
      else some t_r

/-- Checked boundary-event loop (heatmap.py lines 96-110): the two cycle
bounds each divide by `T`. -/
def boundaryEvents? (y T t0 shift total : ℚ) : Option (List (ℚ × ℚ)) := do
  let q1 ← div? (t0 - shift) T
  let q2 ← div? (total + t0 - shift) T
  some ((intRange ⌈q1⌉ ⌊q2⌋).filterMap fun k : ℤ =>
    if 0 < (k : ℚ) * T + shift - t0 ∧ (k : ℚ) * T + shift - t0 ≤ total
    then some ((k : ℚ) * T + shift - t0, y) else none)

/-- Checked `generate_sawtooth_points` (heatmap.py lines 21-136): the flat
branch of lines 27-31 returns before `T = 1000.0 / freq` is evaluated, so it
never divides. -/
def generate_sawtooth_points? (start_pos? : Option ℚ) (start_trend : ℤ)
    (max_val0 min_val0 freq decline_ratio total_time : ℚ) : Option Curve := do
  let start_pos := start_pos?.getD max_val0
  let min_val := normMin max_val0 min_val0
  let max_val := normMax max_val0 min_val0
  if max_val = min_val then
    some ⟨[0, pyround total_time], [start_pos, start_pos]⟩
  else do
    let T ← div? 1000 freq
    let decline_time := T * decline_ratio
    let rise_time := T - decline_time
    let t0 ← find_initial_phase? start_pos start_trend max_val min_val T decline_time rise_time
    let maxE ← boundaryEvents? max_val T t0 0 total_time
    let minE ← boundaryEvents? min_val T t0 decline_time total_time
    let ep ← fmod? (t0 + total_time) T
    let ey ← value_at_phase? max_val min_val T decline_time rise_time ep
    let U := dedupConsec (List.insertionSort (eventLE decline_ratio)
      (maxE ++ minE ++ [(0, start_pos), (total_time, ey)]))
    some ⟨U.map fun p => pyround p.1, U.map fun p => pyround2 p.2⟩

/-! ## Spec-side definitions used to state refuted claims

These follow the claim's words (not the source) and are compared against the
source-derived definitions. -/

/-- Modelled from the claim's words (C1): position commands in strict
half-cycle alternation beginning with the max half-cycle, the max command
carrying duration `(1 - decline_ratio)/freq` seconds in milliseconds and the
min command `decline_ratio/freq`.  Millisecond truncation and the linear map
follow the code. -/
def specTraceMaxFirst (maxv minv freq dr : ℚ) (n : ℕ) : List String :=
  (List.range n).map fun i =>
    if i % 2 = 0 then
      "L0" ++ toString (linear_map maxv 0 100 0 9999).num ++ "I"
        ++ toString (pytrunc ((1 - dr) * 1000 / freq)) ++ "\n"
    else
      "L0" ++ toString (linear_map minv 0 100 0 9999).num ++ "I"
        ++ toString (pytrunc (dr * 1000 / freq)) ++ "\n"

/-- The amended alternation (what the code does): the first command is the
min half-cycle with duration `decline_ratio/freq`, the second the max
half-cycle with duration `(1 - decline_ratio)/freq`, strictly alternating. -/
def specTraceMinFirst (maxv minv freq dr : ℚ) (n : ℕ) : List String :=
  (List.range n).map fun i =>
    if i % 2 = 0 then
      "L0" ++ toString (linear_map minv 0 100 0 9999).num ++ "I"
        ++ toString (pytrunc (dr * 1000 / freq)) ++ "\n"
    else
      "L0" ++ toString (linear_map maxv 0 100 0 9999).num ++ "I"
        ++ toString (pytrunc ((1 - dr) * 1000 / freq)) ++ "\n"

/-- Modelled from the claim's words (C5): a decimal integer zero-padded to
exactly 4 digits. -/
def zeroPad4 (z : ℤ) : String :=
  String.mk (List.replicate (4 - (toString z).length) '0') ++ toString z

/-- Modelled from the claim's words (C5): the loop message with the position
field zero-padded to exactly 4 digits. -/
def paddedLoopMessage (maxv minv freq dr : ℚ) (index : ℕ) : String :=
  let msg_type := if index % 2 = 0 then maxv else minv
  let duration := if index % 2 = 0 then 1 - dr else dr
  "L0" ++ zeroPad4 (linear_map msg_type 0 100 0 9999).num
    ++ "I" ++ toString (pytrunc (duration * 1000 / freq)) ++ "\n"

/-- A concrete Running-state controller: connected, worker alive, stop event
created but not set, document resolving page `"b"` to different parameters. -/
def sampleSC : SC :=
  { maxv := 100, minv := 0, freq := 1, dr := 1/2,
    cfs := [("b", ⟨80, 20, 2, 1/4⟩)], connected := true, hasLoopEvent := true,
    stopSet := false, loopAlive := true, loopGen := 1, sent := [] }

/-! ## Theorems -/

theorem div?_eq {b : ℚ} (hb : b ≠ 0) (a : ℚ) : div? a b = some (a / b) := by
  simp [div?, hb]

theorem fmod?_eq {b : ℚ} (hb : b ≠ 0) (a : ℚ) : fmod? a b = some (fmod a b) := by
  simp [fmod?, div?, hb, fmod]

theorem pyround_le (q : ℚ) : (⌊q⌋ : ℤ) ≤ pyround q := by
  unfold pyround
  split_ifs <;> omega

theorem pyround_ge (q : ℚ) : pyround q ≤ ⌊q⌋ + 1 := by
  unfold pyround
  split_ifs <;> omega

theorem pyround_mono {a b : ℚ} (h : a ≤ b) : pyround a ≤ pyround b := by
  rcases lt_or_eq_of_le (Int.floor_le_floor h) with hf | hf
  · calc pyround a ≤ ⌊a⌋ + 1 := pyround_ge a
      _ ≤ ⌊b⌋ := by omega
      _ ≤ pyround b := pyround_le b
  · unfold pyround
    rw [hf]
    have hr : a - (⌊b⌋ : ℚ) ≤ b - (⌊b⌋ : ℚ) := by linarith
    split_ifs <;> first | omega | linarith

theorem pyround_intCast (n : ℤ) : pyround (n : ℚ) = n := by
  unfold pyround
  rw [Int.floor_intCast]
  norm_num

theorem pyround_natCast (n : ℕ) : pyround (n : ℚ) = n := by
  have : ((n : ℤ) : ℚ) = (n : ℚ) := by push_cast; ring
  rw [← this, pyround_intCast]

theorem pyround2_mono {a b : ℚ} (h : a ≤ b) : pyround2 a ≤ pyround2 b := by
  unfold pyround2
  have : pyround (a * 100) ≤ pyround (b * 100) := pyround_mono (by linarith)
  have hc : ((pyround (a * 100) : ℤ) : ℚ) ≤ ((pyround (b * 100) : ℤ) : ℚ) := by
    exact_mod_cast this
  linarith

theorem fmod_nonneg {b : ℚ} (hb : 0 < b) (a : ℚ) : 0 ≤ fmod a b := by
  unfold fmod
  have h := Int.floor_le (a / b)
  have : b * (⌊a / b⌋ : ℚ) ≤ b * (a / b) := by
    exact mul_le_mul_of_nonneg_left h (le_of_lt hb)
  have hab : b * (a / b) = a := by field_simp
  linarith

theorem fmod_lt {b : ℚ} (hb : 0 < b) (a : ℚ) : fmod a b < b := by
  unfold fmod
  have h := Int.lt_floor_add_one (a / b)
  have : b * (a / b) < b * ((⌊a / b⌋ : ℚ) + 1) := by
    exact mul_lt_mul_of_pos_left h hb
  have hab : b * (a / b) = a := by field_simp
  nlinarith

theorem normMin_le_normMax (a b : ℚ) : normMin a b ≤ normMax a b := by
  unfold normMin normMax
  split_ifs with h
  · exact le_of_lt h
  · exact not_lt.mp h

theorem normMax_eq_normMin_iff {a b : ℚ} : normMax a b = normMin a b ↔ a = b := by
  unfold normMin normMax
  split_ifs with h
  · constructor
    · intro he; exact absurd (he ▸ h) (lt_irrefl _)
    · intro he; exact absurd (he ▸ h) (lt_irrefl _)
  · exact ⟨fun he => he.symm ▸ rfl, fun he => he ▸ rfl⟩

theorem value_at_phase?_eq {T decline_time rise_time : ℚ} (hT : T ≠ 0)
    (hdr : decline_time = 0 → rise_time ≠ 0) (max_val min_val phase0 : ℚ) :
    value_at_phase? max_val min_val T decline_time rise_time phase0 =
      some (value_at_phase max_val min_val T decline_time rise_time phase0) := by
  unfold value_at_phase? value_at_phase value_at_phase_core
  have hh : (if phase0 < 0 ∨ phase0 ≥ T then fmod? phase0 T else some phase0) =
      some (if phase0 < 0 ∨ phase0 ≥ T then fmod phase0 T else phase0) := by
    split_ifs
    · exact fmod?_eq hT phase0
    · rfl
  rw [hh, Option.some_bind]
  generalize (if phase0 < 0 ∨ phase0 ≥ T then fmod phase0 T else phase0) = p
  by_cases hdt : decline_time = 0
  · have hrt := hdr hdt
    by_cases hp : p = 0
    · simp [hdt, hp]
    · simp [hdt, hp, div?_eq, hrt]
  · by_cases hrt : rise_time = 0
    · by_cases hp : p < decline_time
      · simp [hdt, hrt, hp, div?_eq]
      · by_cases hp2 : p = decline_time <;> simp [hdt, hrt, hp, hp2, div?_eq]
    · by_cases hp : p < decline_time
      · simp [hdt, hrt, hp, div?_eq]
      · simp [hdt, hrt, hp, div?_eq]

theorem find_initial_phase?_eq {max_val min_val : ℚ} (start_pos : ℚ) (start_trend : ℤ)
    (T decline_time rise_time : ℚ) :
    find_initial_phase? start_pos start_trend max_val min_val T decline_time rise_time =
      some (find_initial_phase start_pos start_trend max_val min_val T decline_time rise_time) := by
  unfold find_initial_phase? find_initial_phase
  by_cases hmm : max_val = min_val
  · simp [hmm]
  · have hd : max_val - min_val ≠ 0 := sub_ne_zero.mpr hmm
    by_cases hdt : decline_time = 0
    · by_cases hsp : start_pos = max_val
      · simp [hmm, hdt, hsp]
      · simp [hmm, hdt, hsp, div?_eq, hd]
    · by_cases hrt : rise_time = 0
      · by_cases hsp : start_pos = min_val
        · simp [hmm, hdt, hrt, hsp]
        · simp [hmm, hdt, hrt, hsp, div?_eq, hd]
      · simp only [if_neg hmm, if_neg hdt, if_neg hrt, div?_eq hd,
          Option.bind_eq_bind, Option.some_bind]
        split_ifs <;> rfl

theorem boundaryEvents?_eq {T : ℚ} (hT : T ≠ 0) (y t0 shift total : ℚ) :
    boundaryEvents? y T t0 shift total = some (boundaryEvents y T t0 shift total) := by
  unfold boundaryEvents? boundaryEvents
  simp [div?_eq, hT]

theorem generate_sawtooth_points?_eq {freq : ℚ} (hf : freq ≠ 0)
    (start_pos? : Option ℚ) (start_trend : ℤ) (max_val0 min_val0 decline_ratio total_time : ℚ) :
    generate_sawtooth_points? start_pos? start_trend max_val0 min_val0 freq decline_ratio
        total_time =
      some (generate_sawtooth_points start_pos? start_trend max_val0 min_val0 freq decline_ratio
        total_time) := by
  unfold generate_sawtooth_points? generate_sawtooth_points
  by_cases hmm : normMax max_val0 min_val0 = normMin max_val0 min_val0
  · rw [if_pos hmm, if_pos hmm]
  · have hT : (1000 : ℚ) / freq ≠ 0 := div_ne_zero (by norm_num) hf
    have hdr : (1000 : ℚ) / freq * decline_ratio = 0 →
        (1000 : ℚ) / freq - 1000 / freq * decline_ratio ≠ 0 := by
      intro h; rw [h, sub_zero]; exact hT
    rw [if_neg hmm, if_neg hmm]
    rw [div?_eq hf]
    simp only [Option.bind_eq_bind, Option.some_bind]
    rw [find_initial_phase?_eq]
    simp only [Option.some_bind]
    rw [boundaryEvents?_eq hT, boundaryEvents?_eq hT]
    simp only [Option.some_bind]
    rw [fmod?_eq hT]
    simp only [Option.some_bind]
    rw [value_at_phase?_eq hT hdr]
    simp only [Option.some_bind]
    rfl

/-! ## List lemmas about the generator's pipeline -/

theorem dedupConsec_sublist : ∀ l : List (ℚ × ℚ), List.Sublist (dedupConsec l) l
  | [] => List.Sublist.refl _
  | [a] => List.Sublist.refl _
  | a :: b :: rest => by
    unfold dedupConsec
    split_ifs
    · exact (dedupConsec_sublist (b :: rest)).cons a
    · exact (dedupConsec_sublist (b :: rest)).cons₂ a

theorem dedupConsec_head? : ∀ l : List (ℚ × ℚ), (dedupConsec l).head? = l.head?
  | [] => rfl
  | [a] => rfl
  | a :: b :: rest => by
    unfold dedupConsec
    split_ifs with h
    · rw [dedupConsec_head? (b :: rest), h]
      rfl
    · rfl

theorem dedupConsec_getLast? : ∀ l : List (ℚ × ℚ), (dedupConsec l).getLast? = l.getLast?
  | [] => rfl
  | [a] => rfl
  | a :: b :: rest => by
    unfold dedupConsec
    split_ifs with h
    · rw [dedupConsec_getLast? (b :: rest), List.getLast?_cons_cons]
    · have ih : (dedupConsec (b :: rest)).getLast? = (b :: rest).getLast? :=
        dedupConsec_getLast? (b :: rest)
      cases hd : dedupConsec (b :: rest) with
      | nil =>
        have hh := dedupConsec_head? (b :: rest)
        rw [hd] at hh
        simp at hh
      | cons c cs =>
        rw [hd] at ih
        rw [List.getLast?_cons_cons, List.getLast?_cons_cons]
        exact ih

theorem eventLE_fst {dr : ℚ} {p q : ℚ × ℚ} (h : eventLE dr p q) : p.1 ≤ q.1 := by
  unfold eventLE at h
  split_ifs at h with h1 h2
  · rcases h with h | ⟨h, _⟩
    · exact le_of_lt h
    · exact le_of_eq h
  · rcases h with h | ⟨h, _⟩
    · exact le_of_lt h
    · exact le_of_eq h
  · exact h

/-- In a list sorted by `r`, every element is `r`-below the last one or is
the last one. -/
theorem sorted_rel_getLast? {r : ℚ × ℚ → ℚ × ℚ → Prop} :
    ∀ {l : List (ℚ × ℚ)} {e a : ℚ × ℚ}, List.Sorted r l → e ∈ l →
      l.getLast? = some a → r e a ∨ e = a
  | [], _, _, _, he, _ => absurd he (List.not_mem_nil _)
  | [b], e, a, _, he, ha => by
    simp at he ha
    exact Or.inr (he.trans ha)
  | b :: c :: rest, e, a, hs, he, ha => by
    rw [List.getLast?_cons_cons] at ha
    rcases List.mem_cons.mp he with rfl | he2
    · have hmem : a ∈ c :: rest := List.mem_of_getLast?_eq_some ha
      exact Or.inl ((List.sorted_cons.mp hs).1 a hmem)
    · exact sorted_rel_getLast? (List.sorted_cons.mp hs).2 he2 ha

theorem mem_boundaryEvents {e : ℚ × ℚ} {y T t0 shift total : ℚ}
    (h : e ∈ boundaryEvents y T t0 shift total) :
    e.2 = y ∧ 0 < e.1 ∧ e.1 ≤ total := by
  unfold boundaryEvents at h
  rcases List.mem_filterMap.mp h with ⟨k, _, hk⟩
  split_ifs at hk with hc
  cases Option.some_inj.mp hk
  exact ⟨rfl, hc⟩

/-- Membership description of the raw event list: every event is a max
boundary, a min boundary, the synthetic start point, or the synthetic end
point. -/
theorem mem_sawEvents {e : ℚ × ℚ} {start_pos : ℚ} {start_trend : ℤ}
    {max_val min_val freq decline_ratio total_time : ℚ}
    (h : e ∈ sawEvents start_pos start_trend max_val min_val freq decline_ratio total_time) :
    (e.2 = max_val ∧ 0 < e.1 ∧ e.1 ≤ total_time) ∨
    (e.2 = min_val ∧ 0 < e.1 ∧ e.1 ≤ total_time) ∨
    e = (0, start_pos) ∨
    e = (total_time,
      sawEndValue start_pos start_trend max_val min_val freq decline_ratio total_time) := by
  unfold sawEvents at h
  rcases List.mem_append.mp h with h1 | h1
  · rcases List.mem_append.mp h1 with h2 | h2
    · exact Or.inl (mem_boundaryEvents h2)
    · exact Or.inr (Or.inl (mem_boundaryEvents h2))
  · rcases List.mem_cons.mp h1 with rfl | h2
    · exact Or.inr (Or.inr (Or.inl rfl))
    · rcases List.mem_cons.mp h2 with rfl | h3
      · exact Or.inr (Or.inr (Or.inr rfl))
      · exact absurd h3 (List.not_mem_nil _)

/-- Every raw event time lies in `[0, total]` (for `0 ≤ total`). -/
theorem sawEvents_time_bounds {e : ℚ × ℚ} {start_pos : ℚ} {start_trend : ℤ}
    {max_val min_val freq decline_ratio total_time : ℚ} (htot : 0 ≤ total_time)
    (h : e ∈ sawEvents start_pos start_trend max_val min_val freq decline_ratio total_time) :
    0 ≤ e.1 ∧ e.1 ≤ total_time := by
  rcases mem_sawEvents h with ⟨_, h1, h2⟩ | ⟨_, h1, h2⟩ | rfl | rfl
  · exact ⟨le_of_lt h1, h2⟩
  · exact ⟨le_of_lt h1, h2⟩
  · exact ⟨le_refl 0, htot⟩
  · exact ⟨htot, le_refl _⟩

/-- The synthetic start point is the only raw event at time 0 when
`0 < total`. -/
theorem sawEvents_at_zero {e : ℚ × ℚ} {start_pos : ℚ} {start_trend : ℤ}
    {max_val min_val freq decline_ratio total_time : ℚ} (htot : 0 < total_time)
    (h : e ∈ sawEvents start_pos start_trend max_val min_val freq decline_ratio total_time)
    (h0 : e.1 = 0) : e = (0, start_pos) := by
  rcases mem_sawEvents h with ⟨_, h1, _⟩ | ⟨_, h1, _⟩ | rfl | rfl
  · rw [h0] at h1; exact absurd h1 (lt_irrefl 0)
  · rw [h0] at h1; exact absurd h1 (lt_irrefl 0)
  · rfl
  · simp only at h0
    exact absurd h0 (ne_of_gt htot)

theorem sawEvents_start_mem (start_pos : ℚ) (start_trend : ℤ)
    (max_val min_val freq decline_ratio total_time : ℚ) :
    (0, start_pos) ∈
      sawEvents start_pos start_trend max_val min_val freq decline_ratio total_time := by
  unfold sawEvents
  simp

theorem sawEvents_end_mem (start_pos : ℚ) (start_trend : ℤ)
    (max_val min_val freq decline_ratio total_time : ℚ) :
    (total_time, sawEndValue start_pos start_trend max_val min_val freq decline_ratio total_time)
      ∈ sawEvents start_pos start_trend max_val min_val freq decline_ratio total_time := by
  unfold sawEvents
  simp

/-- Lemma: `value_at_phase_core` stays within `[min_val, max_val]` for a phase in
`[0, T)` (with `min_val ≤ max_val`, `T > 0`, `rise_time = T - decline_time`).
-/
theorem value_at_phase_core_mem {max_val min_val T decline_time p : ℚ}
    (hmm : min_val ≤ max_val) (hT : 0 < T) (hb0 : 0 ≤ p) (hbT : p < T) :
    min_val ≤ value_at_phase_core max_val min_val decline_time (T - decline_time) p ∧
      value_at_phase_core max_val min_val decline_time (T - decline_time) p ≤ max_val := by
  unfold value_at_phase_core
  have hd : 0 ≤ max_val - min_val := sub_nonneg.mpr hmm
  split_ifs with h1 h2 h3 h4 h5 h6
  · exact ⟨hmm, le_refl _⟩
  · rw [h1, sub_zero]
    have hr0 : 0 ≤ p / T := div_nonneg hb0 hT.le
    have hr1 : p / T < 1 := (div_lt_one hT).mpr hbT
    constructor <;>
      nlinarith [mul_nonneg hd hr0, mul_le_of_le_one_right hd hr1.le]
  · have hdt : decline_time = T := by linarith [sub_eq_zero.mp h3]
    have hdt0 : 0 < decline_time := hdt ▸ hT
    have hr0 : 0 ≤ p / decline_time := div_nonneg hb0 hdt0.le
    have hr1 : p / decline_time < 1 := (div_lt_one hdt0).mpr h4
    constructor <;>
      nlinarith [mul_nonneg hd hr0, mul_le_of_le_one_right hd hr1.le]
  · exact ⟨le_refl _, hmm⟩
  · exact ⟨hmm, le_refl _⟩
  · have hdt0 : 0 < decline_time := lt_of_le_of_lt hb0 h6
    have hr0 : 0 ≤ p / decline_time := div_nonneg hb0 hdt0.le
    have hr1 : p / decline_time < 1 := (div_lt_one hdt0).mpr h6
    constructor <;>
      nlinarith [mul_nonneg hd hr0, mul_le_of_le_one_right hd hr1.le]
  · have hple : decline_time ≤ p := not_lt.mp h6
    have hrt0 : 0 < T - decline_time := by
      rcases lt_or_eq_of_le (sub_nonneg.mpr (le_trans hple hbT.le)) with h | h
      · exact h
      · exact absurd h.symm h3
    have hr0 : 0 ≤ (p - decline_time) / (T - decline_time) :=
      div_nonneg (by linarith) hrt0.le
    have hr1 : (p - decline_time) / (T - decline_time) < 1 :=
      (div_lt_one hrt0).mpr (by linarith)
    constructor <;>
      nlinarith [mul_nonneg hd hr0, mul_le_of_le_one_right hd hr1.le]

/-- Lemma: `value_at_phase` always returns a value within `[min_val, max_val]`
(for `min_val ≤ max_val`, `T > 0`, `rise_time = T - decline_time`). -/
theorem value_at_phase_mem {max_val min_val T decline_time : ℚ}
    (hmm : min_val ≤ max_val) (hT : 0 < T) (phase0 : ℚ) :
    min_val ≤ value_at_phase max_val min_val T decline_time (T - decline_time) phase0 ∧
      value_at_phase max_val min_val T decline_time (T - decline_time) phase0 ≤ max_val := by
  unfold value_at_phase
  have hb : 0 ≤ (if phase0 < 0 ∨ phase0 ≥ T then fmod phase0 T else phase0) ∧
      (if phase0 < 0 ∨ phase0 ≥ T then fmod phase0 T else phase0) < T := by
    split_ifs with h
    · exact ⟨fmod_nonneg hT phase0, fmod_lt hT phase0⟩
    · push_neg at h
      exact ⟨h.1, h.2⟩
  exact value_at_phase_core_mem hmm hT hb.1 hb.2

/-- The non-flat branch of the generator, written out. -/
theorem generate_nonflat {max_val0 min_val0 : ℚ} (start_pos? : Option ℚ) (start_trend : ℤ)
    (freq decline_ratio total_time : ℚ)
    (hmm : normMax max_val0 min_val0 ≠ normMin max_val0 min_val0) :
    generate_sawtooth_points start_pos? start_trend max_val0 min_val0 freq decline_ratio
        total_time =
      ⟨(dedupConsec (List.insertionSort (eventLE decline_ratio)
          (sawEvents (start_pos?.getD max_val0) start_trend (normMax max_val0 min_val0)
            (normMin max_val0 min_val0) freq decline_ratio total_time))).map
          fun p => pyround p.1,
       (dedupConsec (List.insertionSort (eventLE decline_ratio)
          (sawEvents (start_pos?.getD max_val0) start_trend (normMax max_val0 min_val0)
            (normMin max_val0 min_val0) freq decline_ratio total_time))).map
          fun p => pyround2 p.2⟩ := by
  unfold generate_sawtooth_points
  rw [if_neg hmm]

theorem pyround_zero : pyround 0 = 0 := by
  simpa using pyround_intCast 0

/-- The sorted event list is a permutation of the raw events and is sorted;
shared spine of the next lemmas. -/
theorem sortedEvents_facts (dr : ℚ) (E : List (ℚ × ℚ)) :
    (List.insertionSort (eventLE dr) E).Perm E ∧
      List.Sorted (eventLE dr) (List.insertionSort (eventLE dr) E) :=
  ⟨List.perm_insertionSort _ E, List.sorted_insertionSort _ E⟩

/-- In the non-flat branch, the time column of the output is sorted
non-decreasingly. -/
theorem generate_x_sorted {max_val0 min_val0 : ℚ} (start_pos? : Option ℚ) (start_trend : ℤ)
    (freq decline_ratio total_time : ℚ)
    (hmm : normMax max_val0 min_val0 ≠ normMin max_val0 min_val0) :
    List.Sorted (· ≤ ·) (generate_sawtooth_points start_pos? start_trend max_val0 min_val0
      freq decline_ratio total_time).x := by
  rw [generate_nonflat start_pos? start_trend freq decline_ratio total_time hmm]
  obtain ⟨-, hsort⟩ := sortedEvents_facts decline_ratio
    (sawEvents (start_pos?.getD max_val0) start_trend (normMax max_val0 min_val0)
      (normMin max_val0 min_val0) freq decline_ratio total_time)
  have h1 : List.Pairwise (fun p q : ℚ × ℚ => p.1 ≤ q.1)
      (List.insertionSort (eventLE decline_ratio) _) :=
    hsort.imp fun h => eventLE_fst h
  have h2 := h1.sublist (dedupConsec_sublist _)
  exact List.pairwise_map.mpr (h2.imp fun h => pyround_mono h)

/-- In the non-flat branch with a positive horizon, the first output pair is
the rounded start point `(0, round2 start_pos)`. -/
theorem generate_head {max_val0 min_val0 freq decline_ratio total_time : ℚ}
    (start_pos : ℚ) (start_trend : ℤ)
    (hmm : normMax max_val0 min_val0 ≠ normMin max_val0 min_val0)
    (htot : 0 < total_time) :
    (generate_sawtooth_points (some start_pos) start_trend max_val0 min_val0 freq
      decline_ratio total_time).x.head? = some 0 ∧
    (generate_sawtooth_points (some start_pos) start_trend max_val0 min_val0 freq
      decline_ratio total_time).y.head? = some (pyround2 start_pos) := by
  rw [generate_nonflat _ _ _ _ _ hmm]
  simp only [Option.getD_some]
  set E := sawEvents start_pos start_trend (normMax max_val0 min_val0)
    (normMin max_val0 min_val0) freq decline_ratio total_time with hE
  set S := List.insertionSort (eventLE decline_ratio) E with hS
  have hperm : S.Perm E := List.perm_insertionSort _ E
  have hsort : List.Sorted (eventLE decline_ratio) S := List.sorted_insertionSort _ E
  have hstartS : (0, start_pos) ∈ S := hperm.mem_iff.mpr (sawEvents_start_mem _ _ _ _ _ _ _)
  have hU : (dedupConsec S).head? = some (0, start_pos) := by
    rw [dedupConsec_head?]
    cases hSc : S with
    | nil => rw [hSc] at hstartS; exact absurd hstartS (List.not_mem_nil _)
    | cons hd tl =>
      have hhd : hd = (0, start_pos) := by
        have hhdE : hd ∈ E := hperm.mem_iff.mp (hSc ▸ List.mem_cons_self hd tl)
        rcases List.mem_cons.mp (hSc ▸ hstartS) with he | he
        · exact he.symm
        · have hrel : eventLE decline_ratio hd (0, start_pos) := by
            rw [hSc] at hsort
            exact (List.sorted_cons.mp hsort).1 _ he
          have h1 : hd.1 ≤ 0 := eventLE_fst hrel
          have h0 : 0 ≤ hd.1 := (sawEvents_time_bounds htot.le hhdE).1
          exact sawEvents_at_zero htot hhdE (le_antisymm h1 h0)
      rw [List.head?_cons, hhd]
  constructor
  · rw [List.head?_map, hU]
    simp [pyround_zero]
  · rw [List.head?_map, hU]
    rfl

/-- In the non-flat branch, the last output time is exactly the rounded
horizon. -/
theorem generate_last {max_val0 min_val0 freq decline_ratio total_time : ℚ}
    (start_pos : ℚ) (start_trend : ℤ)
    (hmm : normMax max_val0 min_val0 ≠ normMin max_val0 min_val0)
    (htot : 0 ≤ total_time) :
    (generate_sawtooth_points (some start_pos) start_trend max_val0 min_val0 freq
      decline_ratio total_time).x.getLast? = some (pyround total_time) := by
  rw [generate_nonflat _ _ _ _ _ hmm]
  simp only [Option.getD_some]
  set E := sawEvents start_pos start_trend (normMax max_val0 min_val0)
    (normMin max_val0 min_val0) freq decline_ratio total_time with hE
  set S := List.insertionSort (eventLE decline_ratio) E with hS
  have hperm : S.Perm E := List.perm_insertionSort _ E
  have hsort : List.Sorted (eventLE decline_ratio) S := List.sorted_insertionSort _ E
  have hendS : (total_time, sawEndValue start_pos start_trend (normMax max_val0 min_val0)
      (normMin max_val0 min_val0) freq decline_ratio total_time) ∈ S :=
    hperm.mem_iff.mpr (sawEvents_end_mem _ _ _ _ _ _ _)
  have hne : S ≠ [] := by
    intro hnil
    rw [hnil] at hendS
    exact absurd hendS (List.not_mem_nil _)
  have hglast : S.getLast? = some (S.getLast hne) := List.getLast?_eq_getLast_of_ne_nil hne
  have ha1 : (S.getLast hne).1 = total_time := by
    have haE : S.getLast hne ∈ E := hperm.mem_iff.mp (List.getLast_mem hne)
    have hle : (S.getLast hne).1 ≤ total_time := (sawEvents_time_bounds htot haE).2
    rcases sorted_rel_getLast? hsort hendS hglast with hrel | heq
    · exact le_antisymm hle (eventLE_fst hrel)
    · rw [← heq]
  have hU : (dedupConsec S).getLast? = some (S.getLast hne) := by
    rw [dedupConsec_getLast?, hglast]
  rw [List.getLast?_map, hU]
  simp [ha1]

/-- In the non-flat branch with `freq > 0` and a start position within the
normalized bounds, every output value lies between the two-decimal roundings
of the normalized bounds. -/
theorem generate_y_bounds {max_val0 min_val0 freq decline_ratio total_time : ℚ}
    (start_pos : ℚ) (start_trend : ℤ)
    (hmm : normMax max_val0 min_val0 ≠ normMin max_val0 min_val0)
    (hf : 0 < freq)
    (hlo : normMin max_val0 min_val0 ≤ start_pos)
    (hhi : start_pos ≤ normMax max_val0 min_val0) :
    ∀ v ∈ (generate_sawtooth_points (some start_pos) start_trend max_val0 min_val0 freq
        decline_ratio total_time).y,
      pyround2 (normMin max_val0 min_val0) ≤ v ∧ v ≤ pyround2 (normMax max_val0 min_val0) := by
  rw [generate_nonflat _ _ _ _ _ hmm]
  simp only [Option.getD_some]
  intro v hv
  rcases List.mem_map.mp hv with ⟨e, heU, rfl⟩
  have heS := (dedupConsec_sublist _).mem heU
  have heE := (List.perm_insertionSort (eventLE decline_ratio) _).mem_iff.mp heS
  have hT : 0 < (1000 : ℚ) / freq := by positivity
  have hmm' : normMin max_val0 min_val0 ≤ normMax max_val0 min_val0 := normMin_le_normMax _ _
  have hbound : normMin max_val0 min_val0 ≤ e.2 ∧ e.2 ≤ normMax max_val0 min_val0 := by
    rcases mem_sawEvents heE with ⟨h2, -, -⟩ | ⟨h2, -, -⟩ | rfl | rfl
    · rw [h2]; exact ⟨hmm', le_refl _⟩
    · rw [h2]; exact ⟨le_refl _, hmm'⟩
    · exact ⟨hlo, hhi⟩
    · exact value_at_phase_mem hmm' hT _
  exact ⟨pyround2_mono hbound.1, pyround2_mono hbound.2⟩

theorem intRange_length (a b : ℤ) : (intRange a b).length = (b - a + 1).toNat := by
  unfold intRange
  rw [List.length_map, List.length_range]

/-- Each boundary loop emits at most `total/T + 1` events: the closed-form
cycle bounds span at most that many integers. -/
theorem boundaryEvents_length_le {T total : ℚ} (hT : 0 < T) (htot : 0 ≤ total)
    (y t0 shift : ℚ) :
    ((boundaryEvents y T t0 shift total).length : ℚ) ≤ total / T + 1 := by
  have hdiv : (0 : ℚ) ≤ total / T := div_nonneg htot hT.le
  have hlen : (boundaryEvents y T t0 shift total).length ≤
      (⌊(total + t0 - shift) / T⌋ - ⌈(t0 - shift) / T⌉ + 1).toNat := by
    unfold boundaryEvents
    calc _ ≤ (intRange ⌈(t0 - shift) / T⌉ ⌊(total + t0 - shift) / T⌋).length :=
          List.length_filterMap_le _ _
      _ = _ := intRange_length _ _
  have hcast : ((boundaryEvents y T t0 shift total).length : ℚ) ≤
      (((⌊(total + t0 - shift) / T⌋ - ⌈(t0 - shift) / T⌉ + 1).toNat : ℕ) : ℚ) := by
    exact_mod_cast hlen
  refine le_trans hcast ?_
  set z : ℤ := ⌊(total + t0 - shift) / T⌋ - ⌈(t0 - shift) / T⌉ + 1 with hz
  rcases le_or_lt z 0 with hz0 | hz0
  · rw [Int.toNat_of_nonpos hz0]
    simpa using by linarith
  · rw [show ((z.toNat : ℕ) : ℚ) = (z : ℚ) by exact_mod_cast Int.toNat_of_nonneg hz0.le]
    have h1 : ((⌊(total + t0 - shift) / T⌋ : ℤ) : ℚ) ≤ (total + t0 - shift) / T :=
      Int.floor_le _
    have h2 : (t0 - shift) / T ≤ ((⌈(t0 - shift) / T⌉ : ℤ) : ℚ) := Int.le_ceil _
    have h3 : (total + t0 - shift) / T - (t0 - shift) / T = total / T := by
      rw [div_sub_div_same]
      ring_nf
    have hzq : (z : ℚ) = ((⌊(total + t0 - shift) / T⌋ : ℤ) : ℚ)
        - ((⌈(t0 - shift) / T⌉ : ℤ) : ℚ) + 1 := by
      rw [hz]
      push_cast
      ring
    rw [hzq]
    linarith

/-- In the non-flat branch the output has at most `2·total/T + 4` entries
(before weakening to the `+6` slack used in the safety claim). -/
theorem generate_x_length_le {max_val0 min_val0 freq decline_ratio total_time : ℚ}
    (start_pos? : Option ℚ) (start_trend : ℤ)
    (hmm : normMax max_val0 min_val0 ≠ normMin max_val0 min_val0)
    (hf : 0 < freq) (htot : 0 ≤ total_time) :
    (((generate_sawtooth_points start_pos? start_trend max_val0 min_val0 freq decline_ratio
      total_time).x.length : ℕ) : ℚ) ≤ 2 * (total_time * freq / 1000) + 4 := by
  rw [generate_nonflat _ _ _ _ _ hmm]
  have hT : 0 < (1000 : ℚ) / freq := by positivity
  have hTf : total_time / ((1000 : ℚ) / freq) = total_time * freq / 1000 :=
    div_div_eq_mul_div _ _ _
  set E := sawEvents (start_pos?.getD max_val0) start_trend (normMax max_val0 min_val0)
    (normMin max_val0 min_val0) freq decline_ratio total_time with hE
  have hlen : ((dedupConsec (List.insertionSort (eventLE decline_ratio) E)).map
      fun p : ℚ × ℚ => pyround p.1).length ≤ E.length := by
    rw [List.length_map]
    calc (dedupConsec (List.insertionSort (eventLE decline_ratio) E)).length
        ≤ (List.insertionSort (eventLE decline_ratio) E).length :=
          (dedupConsec_sublist _).length_le
      _ = E.length := (List.perm_insertionSort _ E).length_eq
  have hEsplit : (E.length : ℚ) ≤ 2 * (total_time * freq / 1000) + 4 := by
    rw [hE]
    unfold sawEvents
    rw [List.length_append, List.length_append]
    push_cast
    have hb1 := boundaryEvents_length_le hT htot (normMax max_val0 min_val0)
      (sawT0 (start_pos?.getD max_val0) start_trend (normMax max_val0 min_val0)
        (normMin max_val0 min_val0) freq decline_ratio) 0
    have hb2 := boundaryEvents_length_le hT htot (normMin max_val0 min_val0)
      (sawT0 (start_pos?.getD max_val0) start_trend (normMax max_val0 min_val0)
        (normMin max_val0 min_val0) freq decline_ratio) (1000 / freq * decline_ratio)
    rw [hTf] at hb1 hb2
    simp only [List.length_cons, List.length_nil]
    push_cast
    linarith
  have hgoal : (((dedupConsec (List.insertionSort (eventLE decline_ratio) E)).map
      (fun p : ℚ × ℚ => pyround p.1)).length : ℚ) ≤ (E.length : ℚ) := by
    exact_mod_cast hlen
  exact le_trans hgoal hEsplit

theorem linear_map_default_int (v : ℚ) :
    linear_map v 0 100 0 9999 =
      ((max 0 (min 9999 (pyround ((max 0 (min v 100) - 0) / (100 - 0) * (9999 - 0) + 0))) :
        ℤ) : ℚ) := by
  unfold linear_map
  rw [if_neg (by norm_num : (0 : ℚ) ≠ 100)]
  push_cast
  rfl

/-- Claim C8: with the default bounds, `linear_map` agrees with itself on the
clamped input, is monotone, lands in `[0, 9999]`, and returns its input
unchanged on a degenerate domain `in_min == in_max`. -/
theorem claim_C8_linear_map_props :
    (∀ v : ℚ, linear_map v 0 100 0 9999 = linear_map (max 0 (min v 100)) 0 100 0 9999) ∧
    (∀ v w : ℚ, v ≤ w → linear_map v 0 100 0 9999 ≤ linear_map w 0 100 0 9999) ∧
    (∀ v : ℚ, 0 ≤ linear_map v 0 100 0 9999 ∧ linear_map v 0 100 0 9999 ≤ 9999) ∧
    (∀ v a c d : ℚ, linear_map v a a c d = v) := by
  refine ⟨?_, ?_, ?_, ?_⟩
  · intro v
    unfold linear_map
    rw [if_neg (by norm_num : (0 : ℚ) ≠ 100), if_neg (by norm_num : (0 : ℚ) ≠ 100)]
    have hc0 : (0 : ℚ) ≤ max 0 (min v 100) := le_max_left _ _
    have hc1 : max 0 (min v 100) ≤ 100 := max_le (by norm_num) (min_le_right _ _)
    rw [min_eq_left hc1, max_eq_right hc0]
  · intro v w hvw
    unfold linear_map
    rw [if_neg (by norm_num : (0 : ℚ) ≠ 100), if_neg (by norm_num : (0 : ℚ) ≠ 100)]
    have hclamp : max 0 (min v 100) ≤ max 0 (min w 100) :=
      max_le_max (le_refl 0) (min_le_min hvw (le_refl 100))
    have harg : (max 0 (min v 100) - 0) / (100 - 0) * (9999 - 0) + 0 ≤
        (max 0 (min w 100) - 0) / (100 - 0) * (9999 - 0) + 0 := by
      linarith [hclamp]
    have hr := pyround_mono harg
    have hrq : ((pyround ((max 0 (min v 100) - 0) / (100 - 0) * (9999 - 0) + 0) : ℤ) : ℚ) ≤
        ((pyround ((max 0 (min w 100) - 0) / (100 - 0) * (9999 - 0) + 0) : ℤ) : ℚ) := by
      exact_mod_cast hr
    exact max_le_max (le_refl 0) (min_le_min (le_refl 9999) hrq)
  · intro v
    unfold linear_map
    rw [if_neg (by norm_num : (0 : ℚ) ≠ 100)]
    exact ⟨le_max_left _ _, max_le (by norm_num) (min_le_left _ _)⟩
  · intro v a c d
    unfold linear_map
    rw [if_pos rfl]

/-- Witness for C8 at concrete inputs. -/
theorem claim_C8_witness :
    linear_map 150 0 100 0 9999 = linear_map (max 0 (min 150 100)) 0 100 0 9999 ∧
    linear_map 30 0 100 0 9999 ≤ linear_map 70 0 100 0 9999 ∧
    (0 ≤ linear_map 250 0 100 0 9999 ∧ linear_map 250 0 100 0 9999 ≤ 9999) ∧
    linear_map 7 5 5 0 9999 = 7 :=
  ⟨claim_C8_linear_map_props.1 150,
   claim_C8_linear_map_props.2.1 30 70 (by norm_num),
   claim_C8_linear_map_props.2.2.1 250,
   claim_C8_linear_map_props.2.2.2 7 5 0 9999⟩

/-- Counterexample to C1 as stated: with `max=100, min=0, freq=1,
decline_ratio=1/2`, the first emitted command is the mapped *min* value
(`L00I500`), not the mapped max value (`L09999I500`) predicted by the claim.
-/
theorem claim_C1_counterexample :
    loopTrace 100 0 1 (1/2) 1 ≠ specTraceMaxFirst 100 0 1 (1/2) 1 := by decide

/-- Claim C1 (amended): for `freq ≠ 0` the timed loop emits commands in
strict half-cycle alternation with no command skipped or reordered, but it
begins with the *min* half-cycle: the first command encodes the mapped min
value with duration `decline_ratio/freq`, the second the mapped max value
with duration `(1 - decline_ratio)/freq`, and so on alternating. -/
theorem claim_C1_alternation (maxv minv freq dr : ℚ) (n : ℕ) (hf : freq ≠ 0) :
    loopTrace maxv minv freq dr n = specTraceMinFirst maxv minv freq dr n := by
  unfold loopTrace specTraceMinFirst
  rw [if_neg hf]
  apply List.map_congr_left
  intro i _
  unfold loopBodyMessage
  by_cases hi : i % 2 = 0
  · have h1 : (i + 1) % 2 = 1 := by omega
    simp [hi, h1]
  · have h1 : (i + 1) % 2 = 0 := by omega
    simp [hi, h1]

/-- Witness for C1 (amended) at a concrete parameter set. -/
theorem claim_C1_witness :
    loopTrace 100 0 1 (1/2) 2 = specTraceMinFirst 100 0 1 (1/2) 2 :=
  claim_C1_alternation 100 0 1 (1/2) 2 (by norm_num)

/-- Counterexample to C5 as stated: for mapped position 0 the code emits
`L00I500\n` — the position field is the unpadded decimal `0`, not a 4-digit
zero-padded field. -/
theorem claim_C5_counterexample :
    loopBodyMessage 100 0 1 (1/2) 1 ≠ paddedLoopMessage 100 0 1 (1/2) 1 := by decide

/-- Claim C5 (amended): every line sent by the timed loop has the form
`L0<pos>I<dur>\n` where `<pos>` is the *unpadded* decimal representation of
the mapped position, which always lies in `[0, 9999]`. -/
theorem claim_C5_message_shape (maxv minv freq dr : ℚ) (n : ℕ) :
    ∀ m ∈ loopTrace maxv minv freq dr n, ∃ pos dur : ℤ,
      0 ≤ pos ∧ pos ≤ 9999 ∧
      m = "L0" ++ toString pos ++ "I" ++ toString dur ++ "\n" := by
  intro m hm
  unfold loopTrace at hm
  split_ifs at hm with hf
  · exact absurd hm (List.not_mem_nil _)
  · rcases List.mem_map.mp hm with ⟨i, -, rfl⟩
    refine ⟨(linear_map (if (i + 1) % 2 = 0 then maxv else minv) 0 100 0 9999).num,
      pytrunc ((if (i + 1) % 2 = 0 then 1 - dr else dr) * 1000 / freq), ?_, ?_, rfl⟩
    · rw [linear_map_default_int, Rat.num_intCast]
      exact le_max_left _ _
    · rw [linear_map_default_int, Rat.num_intCast]
      exact max_le (by norm_num) (min_le_left _ _)

/-- Witness for C5 (amended): the first message of a concrete trace. -/
theorem claim_C5_witness : ∃ pos dur : ℤ, 0 ≤ pos ∧ pos ≤ 9999 ∧
    "L00I500\n" = "L0" ++ toString pos ++ "I" ++ toString dur ++ "\n" :=
  claim_C5_message_shape 100 0 1 (1/2) 1 "L00I500\n" (by decide)

/-- Counterexample to C2 as stated: in a Running state, `new_page` with a
resolvable id does not set the stop event, does not join, and spawns no new
worker (`loopGen` unchanged) — yet the shared parameters change, so the old
loop continues with the new parameters. -/
theorem claim_C2_counterexample :
    (new_page sampleSC "b").stopSet = false ∧
    (new_page sampleSC "b").loopGen = sampleSC.loopGen ∧
    (new_page sampleSC "b").loopAlive = true ∧
    (new_page sampleSC "b").maxv = 80 ∧ sampleSC.maxv = 100 := by decide

/-- Claim C2 (amended): while a worker is alive, `new_page` with a
resolvable id only overwrites the four shared oscillation attributes in
place; the running worker is neither stopped nor joined, no second worker is
spawned (`start_loop_send` refuses while one is alive), and every other
field of the controller state is unchanged. -/
theorem claim_C2_inplace_update (s : SC) (page : String) (ps : PageParams)
    (halive : s.loopAlive = true) (hpage : page ≠ "") (hcfs : s.cfs ≠ [])
    (hlook : s.cfs.lookup page = some ps) :
    new_page s page =
      { s with maxv := ps.pmax, minv := ps.pmin, freq := ps.pfreq, dr := ps.pdecline } := by
  unfold new_page
  have hc : ¬(page = "" ∨ s.cfs = [] ∨ (s.cfs.lookup page).isNone = true) := by
    push_neg
    refine ⟨hpage, hcfs, ?_⟩
    simp [hlook]
  rw [if_neg hc, hlook]
  dsimp only [start_loop_send]
  cases hcon : s.connected <;> simp [hcon, halive]

/-- Witness for C2 (amended) at the concrete Running state. -/
theorem claim_C2_witness :
    new_page sampleSC "b" =
      { sampleSC with maxv := 80, minv := 20, freq := 2, dr := 1/4 } :=
  claim_C2_inplace_update sampleSC "b" ⟨80, 20, 2, 1/4⟩ rfl (by decide) (by decide)
    (by decide)

/-- Claim C9: the compose/merge rule is associative over concatenation —
merging `[A, B, C]` equals merging `[merge [A, B], C]`, with the
`merged_x[-1]` IndexError propagated as `none` on both sides. -/
theorem claim_C9_merge_assoc (A B C : Curve) :
    merge_curve_points [A, B, C] =
      (merge_curve_points [A, B]).bind fun ab => merge_curve_points [ab, C] := by
  unfold merge_curve_points
  cases hAB : mergeInto A B with
  | none => simp [List.foldlM, hAB]
  | some ab => cases hC : mergeInto ab C <;> simp [List.foldlM, hAB]

/-- Counterexample to C3 as stated: with `start_pos = 1/3` the first output
pair is `(0, 0.33)` — the start value rounded to two decimals — not exactly
`(0, 1/3)`. -/
theorem claim_C3_counterexample :
    (generate_sawtooth_points (some (1/3)) (-1) 100 0 1 (1/2) 1000).y.head? =
      some (33/100) ∧ (33/100 : ℚ) ≠ 1/3 := by decide

/-- Claim C3 (amended): for `max ≠ min` (after normalization), `freq > 0`
and an integer horizon `total_time ≥ 1`, the generated time values are
non-decreasing, the first pair is exactly `(0, start_pos rounded to two
decimals)`, and the last time value is exactly `total_time`. -/
theorem claim_C3_shape (start_pos : ℚ) (start_trend : ℤ)
    (max_val0 min_val0 freq decline_ratio : ℚ) (total_time : ℕ)
    (hmm : max_val0 ≠ min_val0) (hf : 0 < freq) (htot : 1 ≤ total_time) :
    List.Sorted (· ≤ ·) (generate_sawtooth_points (some start_pos) start_trend max_val0
      min_val0 freq decline_ratio (total_time : ℚ)).x ∧
    (generate_sawtooth_points (some start_pos) start_trend max_val0 min_val0 freq
      decline_ratio (total_time : ℚ)).x.head? = some 0 ∧
    (generate_sawtooth_points (some start_pos) start_trend max_val0 min_val0 freq
      decline_ratio (total_time : ℚ)).y.head? = some (pyround2 start_pos) ∧
    (generate_sawtooth_points (some start_pos) start_trend max_val0 min_val0 freq
      decline_ratio (total_time : ℚ)).x.getLast? = some (total_time : ℤ) := by
  have hmm' : normMax max_val0 min_val0 ≠ normMin max_val0 min_val0 :=
    fun h => hmm (normMax_eq_normMin_iff.mp h)
  have htot' : (0 : ℚ) < (total_time : ℚ) := by
    have : (0 : ℕ) < total_time := htot
    exact_mod_cast this
  obtain ⟨hx, hy⟩ := generate_head start_pos start_trend hmm' htot'
  refine ⟨generate_x_sorted _ _ _ _ _ hmm', hx, hy, ?_⟩
  have hl := @generate_last max_val0 min_val0 freq decline_ratio (total_time : ℚ)
    start_pos start_trend hmm' htot'.le
  rw [hl, pyround_natCast]

/-- Witness for C3 (amended) at the concrete scenario of C4. -/
theorem claim_C3_witness :
    List.Sorted (· ≤ ·) (generate_sawtooth_points (some 100) (-1) 100 0 1 (1/2)
      ((1000 : ℕ) : ℚ)).x ∧
    (generate_sawtooth_points (some 100) (-1) 100 0 1 (1/2) ((1000 : ℕ) : ℚ)).x.head? =
      some 0 ∧
    (generate_sawtooth_points (some 100) (-1) 100 0 1 (1/2) ((1000 : ℕ) : ℚ)).y.head? =
      some (pyround2 100) ∧
    (generate_sawtooth_points (some 100) (-1) 100 0 1 (1/2) ((1000 : ℕ) : ℚ)).x.getLast? =
      some ((1000 : ℕ) : ℤ) :=
  claim_C3_shape 100 (-1) 100 0 1 (1/2) 1000 (by norm_num) (by norm_num) (by norm_num)

/-- Claim C4: the spec scenario `max=100, min=0, freq=1.0,
decline_ratio=0.5, start_pos=100, start_trend=falling, total_time=1000`
produces exactly the keypoints `(0,100), (500,0), (1000,100)`. -/
theorem claim_C4_scenario :
    generate_sawtooth_points (some 100) (-1) 100 0 1 (1/2) 1000 =
      ⟨[0, 500, 1000], [100, 0, 100]⟩ := by decide

/-- Counterexample to C6 as stated: with `max = min = 50` and
`start_pos = 80` the flat branch returns the value 80 twice, outside the
interval `[50, 50]` of the generating ParameterSet. -/
theorem claim_C6_counterexample :
    (generate_sawtooth_points (some 80) (-1) 50 50 1 (1/2) 1000).y = [80, 80] ∧
    ¬((80 : ℚ) ≤ 50) := by decide

/-- Claim C6 (amended): for `freq > 0`, `max ≠ min` after normalization, and
a start position within the normalized bounds, every generated value lies in
the closed interval between the two-decimal roundings of the normalized min
and max. -/
theorem claim_C6_value_bounds (start_pos : ℚ) (start_trend : ℤ)
    (max_val0 min_val0 freq decline_ratio total_time : ℚ)
    (hmm : max_val0 ≠ min_val0) (hf : 0 < freq)
    (hlo : normMin max_val0 min_val0 ≤ start_pos)
    (hhi : start_pos ≤ normMax max_val0 min_val0) :
    ∀ v ∈ (generate_sawtooth_points (some start_pos) start_trend max_val0 min_val0 freq
        decline_ratio total_time).y,
      pyround2 (normMin max_val0 min_val0) ≤ v ∧ v ≤ pyround2 (normMax max_val0 min_val0) :=
  generate_y_bounds start_pos start_trend
    (fun h => hmm (normMax_eq_normMin_iff.mp h)) hf hlo hhi

/-- Witness for C6 (amended): a concrete output value of a concrete run. -/
theorem claim_C6_witness :
    pyround2 (normMin 100 0) ≤ 100 ∧ (100 : ℚ) ≤ pyround2 (normMax 100 0) :=
  claim_C6_value_bounds 50 (-1) 100 0 1 (1/2) 1000 (by norm_num) (by norm_num)
    (by norm_num [normMin]) (by norm_num [normMax]) 100 (by decide)

/-- Claim C7: for `freq > 0`, normalized `min < max`, `decline_ratio ∈
{0, 1}`, a start position within bounds and `total_time ≥ 0`, the generator
raises no `ZeroDivisionError` (the checked embedding returns `some`), and
the output length is bounded affinely by `total_time / T`
(`T = 1000/freq` ms, so `total_time/T = total_time·freq/1000`). -/
theorem claim_C7_safety (start_pos : ℚ) (start_trend : ℤ)
    (max_val0 min_val0 freq decline_ratio total_time : ℚ)
    (hf : 0 < freq) (hmm : normMin max_val0 min_val0 < normMax max_val0 min_val0)
    (hdr : decline_ratio = 0 ∨ decline_ratio = 1)
    (hlo : normMin max_val0 min_val0 ≤ start_pos)
    (hhi : start_pos ≤ normMax max_val0 min_val0)
    (htot : 0 ≤ total_time) :
    ∃ c, generate_sawtooth_points? (some start_pos) start_trend max_val0 min_val0 freq
        decline_ratio total_time = some c ∧
      ((c.x.length : ℕ) : ℚ) ≤ 2 * (total_time * freq / 1000) + 6 ∧
      c.y.length = c.x.length := by
  refine ⟨generate_sawtooth_points (some start_pos) start_trend max_val0 min_val0 freq
      decline_ratio total_time,
    generate_sawtooth_points?_eq (ne_of_gt hf) _ _ _ _ _ _, ?_, ?_⟩
  · have hb := @generate_x_length_le max_val0 min_val0 freq decline_ratio total_time
      (some start_pos) start_trend (ne_of_gt hmm) hf htot
    linarith
  · rw [generate_nonflat _ _ _ _ _ (ne_of_gt hmm)]
    simp [List.length_map]

/-- Witness for C7 at a concrete `decline_ratio = 0` parameter set. -/
theorem claim_C7_witness :
    ∃ c, generate_sawtooth_points? (some 50) (-1) 100 0 1 0 1000 = some c ∧
      ((c.x.length : ℕ) : ℚ) ≤ 2 * ((1000 : ℚ) * 1 / 1000) + 6 ∧
      c.y.length = c.x.length :=
  claim_C7_safety 50 (-1) 100 0 1 0 1000 (by norm_num)
    (by norm_num [normMin, normMax]) (Or.inl rfl)
    (by norm_num [normMin]) (by norm_num [normMax]) (by norm_num)

/-- Claim C10: when `max == min` (after normalization) the generator returns
exactly the two keypoints `(0, start_pos)` and `(total_time, start_pos)` —
the flat segment sits at `start_pos`, not at the common max/min value. -/
theorem claim_C10_flat_segment (start_pos : ℚ) (start_trend : ℤ)
    (max_val0 min_val0 freq decline_ratio : ℚ) (total_time : ℕ)
    (h : max_val0 = min_val0) :
    generate_sawtooth_points (some start_pos) start_trend max_val0 min_val0 freq
        decline_ratio (total_time : ℚ) =
      ⟨[0, (total_time : ℤ)], [start_pos, start_pos]⟩ := by
  unfold generate_sawtooth_points
  rw [if_pos (normMax_eq_normMin_iff.mpr h), pyround_natCast]
  rfl

/-- Witness for C10: a flat segment pinned at `start_pos = 80` while
`max = min = 50`. -/
theorem claim_C10_witness :
    generate_sawtooth_points (some 80) (-1) 50 50 1 (1/2) ((1000 : ℕ) : ℚ) =
      ⟨[0, ((1000 : ℕ) : ℤ)], [80, 80]⟩ :=
  claim_C10_flat_segment 80 (-1) 50 50 1 (1/2) 1000 rfl
